import Mathlib

/-!
Shallow embedding of the CSV_Combine Flask application (src/app.py) and
proofs about its upload / remove / combine operations.

Files are modelled as name/content pairs of strings (content is the
UTF-8-decoded byte payload); the storage directory is a list of such
files whose list order is the order `os.listdir` happens to return
(the code performs no sort).  Pure string processing from the Python
source (extension check, werkzeug's `secure_filename`, the pandas
CSV read/write calls with their exact flag settings) is translated
into structurally recursive Lean functions so that every definition
evaluates by kernel reduction.
-/

/-- One file on disk: its (base)name and its decoded byte content. -/
structure StagedFile where
  name : String
  content : String
deriving Repr, DecidableEq

/-- The uploads directory, in the order `os.listdir` returns it. -/
abbrev Storage := List StagedFile

/-- A parsed CSV table: header row and data rows, all fields raw strings. -/
structure Table where
  header : List String
  rows : List (List String)
deriving Repr, DecidableEq

/-- Failure modes of the combine endpoint that are visible to the user. -/
inductive CombineError where
  | noFilesFound
  | parseError (name : String)
  | headerMismatch (name : String)
  | noValidData
deriving Repr, DecidableEq

/-! ### Generic character-list helpers (structural recursion so that the
kernel can evaluate them on concrete inputs) -/

/-- Split a character list at every character satisfying `p`
(each separator ends a chunk; like repeated `str.split(sep)`). -/
def splitOnPred (p : Char → Bool) : List Char → List (List Char)
  | [] => [[]]
  | c :: t =>
    if p c then [] :: splitOnPred p t
    else
      match splitOnPred p t with
      | [] => [[c]]
      | h :: r => (c :: h) :: r

/-- Split a character list on a single separator character. -/
def splitOnChar (sep : Char) (l : List Char) : List (List Char) :=
  splitOnPred (fun c => c == sep) l

/-- Join chunks with a separator list (Python `sep.join(parts)`). -/
def joinSep (sep : List Char) : List (List Char) → List Char
  | [] => []
  | [x] => x
  | x :: xs => x ++ sep ++ joinSep sep xs

/-- Concatenate a list of strings (structural, kernel-reducible). -/
def strJoin : List String → String
  | [] => ""
  | s :: r => s ++ strJoin r

/-! ### `allowed_file` (src/app.py lines 37–38) -/

/-- Translation of `allowed_file`: the name contains a dot and the part
after the last dot, lowercased, is exactly `csv`
(`'.' in filename and filename.rsplit('.', 1)[1].lower() in {'csv'}`). -/
def allowed_file (filename : String) : Bool :=
  filename.data.contains '.' &&
    (String.mk (((splitOnChar '.' filename.data).getLastD []).map Char.toLower) == "csv")

/-! ### pandas CSV parsing (src/app.py line 165)

`pd.read_csv(BytesIO(file_content), dtype=str, keep_default_na=False,
encoding='utf-8')` is an external library call; it is modelled here for
contents that use Unix newlines and contain no quoted fields:
blank lines are skipped (`skip_blank_lines=True` default), the first
remaining line is the header, every field is kept as a raw string with
the literal empty string preserved (`dtype=str, keep_default_na=False`).
When the first data row is wider than the header, the extra leading
fields form an implicit row-label (index) column block — pandas: "if a
file has one more column of data than the number of column names, the
first column will be used as the DataFrame's row labels" — so the
DataFrame's columns are exactly the header names and the label fields
are not part of its data (nor would `to_csv(index=False)` write them);
a data row wider than the field count so established raises a
tokenizing error ("Expected N fields, saw M"), and a shorter row has
its missing trailing fields read as empty strings. -/

/-- Split one CSV line into raw string fields (no quote handling). -/
def parseRecord (line : List Char) : List String :=
  (splitOnChar ',' line).map String.mk

/-- Pad a short data row with empty-string fields up to the header width. -/
def padTo (n : Nat) (r : List String) : List String :=
  r ++ List.replicate (n - r.length) ""

/-- Model of the `pd.read_csv(..., dtype=str, keep_default_na=False)` call:
`nidx` is the width of the implicit index block (zero when the first
data row is no wider than the header). -/
def read_csv (content : String) : Except String Table :=
  match (splitOnChar '\n' content.data).filter (fun l => !l.isEmpty) with
  | [] => .error "No columns to parse from file"
  | h :: rest =>
    let header := parseRecord h
    let rows := rest.map parseRecord
    let nidx := (rows.headD []).length - header.length
    if rows.any (fun r => header.length + nidx < r.length) then
      .error "Error tokenizing data"
    else
      .ok { header := header, rows := rows.map (fun r => padTo header.length (r.drop nidx)) }

/-! ### pandas CSV serialization (src/app.py lines 189–191)

`combined_df.to_csv(output, index=False, encoding='utf-8')`: one line per
row (header first), fields joined by commas, each line terminated by a
newline, minimal quoting (a field is quoted iff it contains a comma,
a double quote, or a newline; inner double quotes are doubled). -/

/-- Double every double-quote character (CSV quoting of a quoted field). -/
def escapeQuotes : List Char → List Char
  | [] => []
  | c :: t => if c == '"' then '"' :: '"' :: escapeQuotes t else c :: escapeQuotes t

/-- Quote a field when it contains a delimiter, quote char or newline. -/
def quoteField (f : List Char) : List Char :=
  if f.any (fun c => c == ',' || c == '"' || c == '\n' || c == '\r') then
    '"' :: (escapeQuotes f ++ ['"'])
  else f

/-- Serialize one row to a CSV line body (fields joined by commas). -/
def serializeRecord (r : List String) : String :=
  String.mk (joinSep [','] (r.map (fun s => quoteField s.data)))

/-- One output line: serialized row plus the newline terminator. -/
def csvLine (r : List String) : String := serializeRecord r ++ "\n"

/-- Model of `DataFrame.to_csv(index=False)`: header line then row lines. -/
def to_csv (t : Table) : String :=
  strJoin ((t.header :: t.rows).map csvLine)

/-- Decidable equality for `Except` results, so that concrete runs of the
embedded operations can be checked by `decide`. -/
instance {ε α : Type} [DecidableEq ε] [DecidableEq α] : DecidableEq (Except ε α) := fun
  | .ok a, .ok b =>
    if h : a = b then .isTrue (by rw [h]) else .isFalse (by intro he; cases he; exact h rfl)
  | .ok _, .error _ => .isFalse (by intro h; cases h)
  | .error _, .ok _ => .isFalse (by intro h; cases h)
  | .error e, .error f =>
    if h : e = f then .isTrue (by rw [h]) else .isFalse (by intro he; cases he; exact h rfl)

/-! ### The combine endpoint (src/app.py lines 128–213) -/

/-- Listing of the uploads folder as the combine (and index) route sees it:
`[f for f in os.listdir(...) if allowed_file(f)]` (src/app.py line 131).
The underlying list order is whatever `os.listdir` returned. -/
def listed (s : Storage) : List StagedFile :=
  s.filter (fun f => allowed_file f.name)

/-- Body of the per-file loop of `combine_csv` (src/app.py lines 156–181):
given the current reference header (`headers`, `none` until the first
successfully parsed non-empty file) and the tables collected so far
(`dfs`), process one file: skip it if its byte content is empty, abort
with `ParseError` if `pd.read_csv` raises, skip it if the parsed table
has no data rows (`df.empty`), otherwise adopt or check the header and
append the table. -/
def combineStep (headers : Option (List String)) (dfs : List Table) (f : StagedFile) :
    Except CombineError (Option (List String) × List Table) :=
  if f.content = "" then .ok (headers, dfs)
  else
    match read_csv f.content with
    | .error _ => .error (.parseError f.name)
    | .ok df =>
      if df.rows = [] then .ok (headers, dfs)
      else
        match headers with
        | none => .ok (some df.header, dfs ++ [df])
        | some hs =>
          if df.header = hs then .ok (some hs, dfs ++ [df])
          else .error (.headerMismatch f.name)

/-- The `for file_path in valid_files` loop of `combine_csv`: fold
`combineStep` over the files, stopping at the first error
(the Python loop returns the redirect immediately). -/
def combineLoop : List StagedFile → Option (List String) → List Table →
    Except CombineError (Option (List String) × List Table)
  | [], headers, dfs => .ok (headers, dfs)
  | f :: rest, headers, dfs =>
    match combineStep headers dfs f with
    | .error e => .error e
    | .ok (headers', dfs') => combineLoop rest headers' dfs'

/-- Combine pipeline up to and including serialization (src/app.py
lines 131–193): list the folder (empty listing fails with
`NoFilesFound`), run the per-file loop, fail with `NoValidData` when no
table was collected, otherwise concatenate all collected tables
(`pd.concat(dfs, ignore_index=True)`: the columns of the first table,
all data rows in collection order) and return the combined table
together with the names scheduled for deletion (`valid_files`, i.e. the
whole listing). -/
def concatTables (d0 : Table) (ds : List Table) : Table :=
  { header := d0.header, rows := ((d0 :: ds).map Table.rows).flatten }

/-- Combine pipeline up to and including serialization, continued:
`pd.concat(dfs, ignore_index=True)` on tables with identical columns is
row concatenation under the first table's columns (`concatTables`). -/
def combinePipeline (s : Storage) : Except CombineError (Table × List String) :=
  if listed s = [] then .error .noFilesFound
  else
    match combineLoop (listed s) none [] with
    | .error e => .error e
    | .ok (_, []) => .error .noValidData
    | .ok (_, d0 :: ds) => .ok (concatTables d0 ds, (listed s).map StagedFile.name)

/-- Post-success cleanup (src/app.py lines 196–201): try to delete every
path in `valid_files`; `delOk` says which individual `os.remove` calls
succeed (a failed one is only logged and the loop continues). -/
def removeNames (names : List String) (delOk : String → Bool) (s : Storage) : Storage :=
  s.filter (fun f => !(names.contains f.name && delOk f.name))

/-- The whole combine endpoint: on any pipeline failure the user is
redirected and the folder is untouched; on success the serialized CSV
(`to_csv`, sent as `combined_output.csv`) is returned and cleanup runs.
The result pairs the user-visible outcome with the folder afterwards. -/
def combine_csv (s : Storage) (delOk : String → Bool) :
    Except CombineError String × Storage :=
  match combinePipeline s with
  | .error e => (.error e, s)
  | .ok (t, names) => (.ok (to_csv t), removeNames names delOk s)

/-- Deletion oracle under which every `os.remove` succeeds. -/
def allDel : String → Bool := fun _ => true

/-! ### werkzeug `secure_filename` (called at src/app.py lines 67 and 114)

External library function, modelled for ASCII inputs (the initial NFKD
normalization + ascii re-encoding is modelled as dropping non-ASCII
characters): replace the path separator by a space, split on whitespace
and re-join with underscores, drop every character outside
`[A-Za-z0-9_.-]`, then strip leading and trailing `.` and `_`. -/

/-- Characters kept by werkzeug's `_filename_ascii_strip_re`. -/
def isKeepChar (c : Char) : Bool :=
  c.isAlpha || c.isDigit || c == '_' || c == '.' || c == '-'

/-- Python `str.split()` whitespace. -/
def isPySpace (c : Char) : Bool :=
  c == ' ' || c == '\t' || c == '\n' || c == '\r' || c == '\x0B' || c == '\x0C'

/-- Characters removed by the final `.strip("._")`. -/
def isDotU (c : Char) : Bool := c == '.' || c == '_'

/-- Drop the trailing run of `.`/`_` characters. -/
def dropTrailingDU : List Char → List Char
  | [] => []
  | c :: t =>
    let r := dropTrailingDU t
    if r.isEmpty then (if isDotU c then [] else [c]) else c :: r

/-- Character-level pipeline of werkzeug's `secure_filename`. -/
def secureFilenameChars (l : List Char) : List Char :=
  let ascii := l.filter (fun c => decide (c.toNat < 128))
  let replaced := ascii.map (fun c => if c == '/' then ' ' else c)
  let parts := (splitOnPred isPySpace replaced).filter (fun x => !x.isEmpty)
  let kept := (joinSep ['_'] parts).filter isKeepChar
  dropTrailingDU (kept.dropWhile isDotU)

/-- Model of `werkzeug.utils.secure_filename`. -/
def secure_filename (filename : String) : String :=
  String.mk (secureFilenameChars filename.data)

/-! ### Upload endpoint (src/app.py lines 51–110) -/

/-- `app.config['MAX_CONTENT_LENGTH'] = 50 * 1024 * 1024` (line 35). -/
def MAX_CONTENT_LENGTH : Nat := 50 * 1024 * 1024

/-- Write a file into the uploads folder, overwriting any existing file
of the same name (`file.save(file_path)`). -/
def putFile (s : Storage) (n : String) (c : String) : Storage :=
  s.filter (fun f => !(f.name == n)) ++ [⟨n, c⟩]

/-- One iteration of the upload loop (src/app.py lines 65–104): reject a
name that fails `allowed_file`, skip a zero-byte payload, skip a payload
over the size limit, otherwise save under the sanitized name.  The
re-read check after saving (lines 85–93) can only fire when the write
itself truncated the file, which cannot happen in this sequential
model, so it is a no-op here. -/
def uploadStep (st : Storage) (file : StagedFile) : Storage :=
  if allowed_file file.name then
    if file.content.length = 0 then st
    else if MAX_CONTENT_LENGTH < file.content.length then st
    else putFile st (secure_filename file.name) file.content
  else st

/-- The upload endpoint: process each part of the multipart request in
order (payload sizes are measured in characters of the decoded
content, standing in for byte counts). -/
def upload_files (s : Storage) (reqs : List StagedFile) : Storage :=
  reqs.foldl uploadStep s

/-! ### Remove endpoint and path safety (src/app.py lines 112–126) -/

/-- `os.path.join(a, b)` for the two-argument call at line 114: a later
absolute component discards the earlier one, otherwise the parts are
joined with a single separator. -/
def os_path_join (a b : List Char) : List Char :=
  if b.head? = some '/' then b else a ++ '/' :: b

/-- `UPLOAD_FOLDER = 'uploads'` (line 12). -/
def UPLOAD_FOLDER : String := "uploads"

/-- The path that `remove_file` passes to `os.path.exists`/`os.remove`:
`os.path.join(app.config['UPLOAD_FOLDER'], secure_filename(filename))`. -/
def remove_target (filename : String) : List Char :=
  os_path_join UPLOAD_FOLDER.data (secure_filename filename).data

/-- Non-empty `/`-separated components of a path. -/
def pathComponents (p : List Char) : List (List Char) :=
  (splitOnChar '/' p).filter (fun c => !c.isEmpty)

/-- Resolve `.` and `..` components the way the filesystem would. -/
def normalizePath (comps : List (List Char)) : List (List Char) :=
  comps.foldl
    (fun acc c =>
      if c = ['.'] then acc
      else if c = ['.', '.'] then acc.dropLast
      else acc ++ [c]) []

/-- Effect of the remove endpoint on the uploads folder: the file whose
name matches the sanitized request name (if any) is deleted. -/
def remove_file (s : Storage) (filename : String) : Storage :=
  s.filter (fun f => !(f.name == secure_filename filename))

/-! ### Analysis of the combine loop -/

/-- Whether an `Except` computation succeeded. -/
def exceptOk {ε α : Type} : Except ε α → Bool
  | .ok _ => true
  | .error _ => false

/-- A file that does not abort the combine loop by itself: either its
byte content is empty (it is skipped) or `pd.read_csv` succeeds on it. -/
def fileClean (f : StagedFile) : Bool :=
  f.content == "" || exceptOk (read_csv f.content)

/-- The table a file contributes to the combine, if any: `none` when the
file is skipped (empty content or a table without data rows) or when
parsing fails. -/
def fileTable (f : StagedFile) : Option Table :=
  if f.content = "" then none
  else
    match read_csv f.content with
    | .error _ => none
    | .ok t => if t.rows = [] then none else some t

/-- The tables the combine loop collects from a list of files, in file
order (`dfs` at the end of a loop that aborted nowhere). -/
def parsedTables (l : List StagedFile) : List Table :=
  l.filterMap fileTable

/-- The reference header of a list of collected tables: the header of
the first one. -/
def refHeader : List Table → List String
  | [] => []
  | t :: _ => t.header

/-- Every collected table carries the reference header. -/
def consistentTables (l : List Table) : Prop :=
  ∀ t ∈ l, t.header = refHeader l

/-- The `headers` variable after a loop over `l` that aborted nowhere. -/
def stateAfter (l : List StagedFile) : Option (List String) :=
  match parsedTables l with
  | [] => none
  | t :: _ => some t.header

theorem parsedTables_nil : parsedTables [] = [] := rfl

theorem parsedTables_cons_none {f : StagedFile} {l : List StagedFile}
    (h : fileTable f = none) : parsedTables (f :: l) = parsedTables l := by
  simp [parsedTables, h]

theorem parsedTables_cons_some {f : StagedFile} {l : List StagedFile} {t : Table}
    (h : fileTable f = some t) : parsedTables (f :: l) = t :: parsedTables l := by
  simp [parsedTables, h]

theorem fileTable_some_inv {f : StagedFile} {t : Table} (h : fileTable f = some t) :
    f.content ≠ "" ∧ read_csv f.content = .ok t ∧ t.rows ≠ [] := by
  unfold fileTable at h
  by_cases hc : f.content = ""
  · simp [hc] at h
  · refine ⟨hc, ?_⟩
    simp only [hc, if_false] at h
    cases hr : read_csv f.content with
    | error e => rw [hr] at h; cases h
    | ok u =>
      rw [hr] at h
      by_cases hrow : u.rows = []
      · simp [hrow] at h
      · simp [hrow] at h
        exact ⟨by rw [h], by rw [← h]; exact hrow⟩

theorem combineStep_skip {f : StagedFile} (headers : Option (List String))
    (dfs : List Table) (hft : fileTable f = none) (hcl : fileClean f) :
    combineStep headers dfs f = .ok (headers, dfs) := by
  unfold combineStep
  unfold fileTable at hft
  by_cases hc : f.content = ""
  · simp [hc]
  · simp only [hc, if_false] at hft ⊢
    cases hr : read_csv f.content with
    | error e =>
      exfalso
      unfold fileClean at hcl
      simp [hc, hr, exceptOk] at hcl
    | ok t =>
      rw [hr] at hft
      by_cases hrow : t.rows = []
      · simp [hrow]
      · simp [hrow] at hft

theorem combineStep_take_none {f : StagedFile} {t : Table}
    (hft : fileTable f = some t) (dfs : List Table) :
    combineStep none dfs f = .ok (some t.header, dfs ++ [t]) := by
  obtain ⟨hc, hr, hrow⟩ := fileTable_some_inv hft
  unfold combineStep
  simp [hc, hr, hrow]

theorem combineStep_take_match {f : StagedFile} {t : Table} {hs : List String}
    (hft : fileTable f = some t) (hh : t.header = hs) (dfs : List Table) :
    combineStep (some hs) dfs f = .ok (some hs, dfs ++ [t]) := by
  obtain ⟨hc, hr, hrow⟩ := fileTable_some_inv hft
  unfold combineStep
  simp [hc, hr, hrow, hh]

theorem combineStep_take_mismatch {f : StagedFile} {t : Table} {hs : List String}
    (hft : fileTable f = some t) (hh : t.header ≠ hs) (dfs : List Table) :
    combineStep (some hs) dfs f = .error (.headerMismatch f.name) := by
  obtain ⟨hc, hr, hrow⟩ := fileTable_some_inv hft
  unfold combineStep
  simp [hc, hr, hrow, hh]

theorem combineStep_parse_error {f : StagedFile} {e : String}
    (hc : f.content ≠ "") (he : read_csv f.content = .error e)
    (headers : Option (List String)) (dfs : List Table) :
    combineStep headers dfs f = .error (.parseError f.name) := by
  unfold combineStep
  simp [hc, he]

theorem combineLoop_cons_ok {f : StagedFile} {rest : List StagedFile}
    {headers headers' : Option (List String)} {dfs dfs' : List Table}
    (h : combineStep headers dfs f = .ok (headers', dfs')) :
    combineLoop (f :: rest) headers dfs = combineLoop rest headers' dfs' := by
  rw [combineLoop, h]

theorem combineLoop_cons_error {f : StagedFile} {rest : List StagedFile}
    {headers : Option (List String)} {dfs : List Table} {e : CombineError}
    (h : combineStep headers dfs f = .error e) :
    combineLoop (f :: rest) headers dfs = .error e := by
  rw [combineLoop, h]

theorem combineLoop_prefix_some (l1 rest : List StagedFile) (hs : List String)
    (dfs : List Table)
    (hcl : ∀ f ∈ l1, fileClean f)
    (hhd : ∀ t ∈ parsedTables l1, t.header = hs) :
    combineLoop (l1 ++ rest) (some hs) dfs =
      combineLoop rest (some hs) (dfs ++ parsedTables l1) := by
  induction l1 generalizing dfs with
  | nil => simp [parsedTables_nil]
  | cons f l1 ih =>
    cases hft : fileTable f with
    | none =>
      rw [List.cons_append,
        combineLoop_cons_ok (combineStep_skip (some hs) dfs hft (hcl f (by simp)))]
      rw [parsedTables_cons_none hft] at hhd ⊢
      exact ih dfs (fun g hg => hcl g (List.mem_cons_of_mem f hg)) hhd
    | some t =>
      rw [parsedTables_cons_some hft] at hhd ⊢
      rw [List.cons_append,
        combineLoop_cons_ok (combineStep_take_match hft (hhd t (by simp)) dfs)]
      rw [ih (dfs ++ [t]) (fun g hg => hcl g (List.mem_cons_of_mem f hg))
        (fun u hu => hhd u (List.mem_cons_of_mem t hu))]
      simp

theorem combineLoop_prefix_none (l1 rest : List StagedFile) (dfs : List Table)
    (hcl : ∀ f ∈ l1, fileClean f)
    (hcons : consistentTables (parsedTables l1)) :
    combineLoop (l1 ++ rest) none dfs =
      combineLoop rest (stateAfter l1) (dfs ++ parsedTables l1) := by
  induction l1 generalizing dfs with
  | nil => simp [parsedTables_nil, stateAfter]
  | cons f l1 ih =>
    cases hft : fileTable f with
    | none =>
      rw [List.cons_append,
        combineLoop_cons_ok (combineStep_skip none dfs hft (hcl f (by simp)))]
      rw [parsedTables_cons_none hft] at hcons ⊢
      rw [show stateAfter (f :: l1) = stateAfter l1 by
        simp [stateAfter, parsedTables_cons_none hft]]
      exact ih dfs (fun g hg => hcl g (List.mem_cons_of_mem f hg)) hcons
    | some t =>
      rw [List.cons_append, combineLoop_cons_ok (combineStep_take_none hft dfs)]
      rw [parsedTables_cons_some hft] at hcons ⊢
      have hhd : ∀ u ∈ parsedTables l1, u.header = t.header := by
        intro u hu
        simpa [refHeader] using hcons u (List.mem_cons_of_mem t hu)
      rw [combineLoop_prefix_some l1 rest t.header (dfs ++ [t])
        (fun g hg => hcl g (List.mem_cons_of_mem f hg)) hhd]
      rw [show stateAfter (f :: l1) = some t.header by
        simp [stateAfter, parsedTables_cons_some hft]]
      simp

theorem combineLoop_clean_consistent (l : List StagedFile) (dfs : List Table)
    (hcl : ∀ f ∈ l, fileClean f)
    (hcons : consistentTables (parsedTables l)) :
    combineLoop l none dfs = .ok (stateAfter l, dfs ++ parsedTables l) := by
  have h := combineLoop_prefix_none l [] dfs hcl hcons
  rw [List.append_nil] at h
  rw [h]
  rfl

theorem combineLoop_mismatch_some (l : List StagedFile) (hs : List String)
    (dfs : List Table)
    (hcl : ∀ f ∈ l, fileClean f)
    (hex : ∃ t ∈ parsedTables l, t.header ≠ hs) :
    ∃ n, combineLoop l (some hs) dfs = .error (.headerMismatch n) := by
  induction l generalizing dfs with
  | nil => simp [parsedTables_nil] at hex
  | cons f rest ih =>
    cases hft : fileTable f with
    | none =>
      rw [combineLoop_cons_ok (combineStep_skip (some hs) dfs hft (hcl f (by simp)))]
      rw [parsedTables_cons_none hft] at hex
      exact ih dfs (fun g hg => hcl g (List.mem_cons_of_mem f hg)) hex
    | some t =>
      rw [parsedTables_cons_some hft] at hex
      by_cases hth : t.header = hs
      · rw [combineLoop_cons_ok (combineStep_take_match hft hth dfs)]
        obtain ⟨u, hu, hne⟩ := hex
        rcases List.mem_cons.mp hu with rfl | hu'
        · exact absurd hth hne
        · exact ih (dfs ++ [t]) (fun g hg => hcl g (List.mem_cons_of_mem f hg)) ⟨u, hu', hne⟩
      · exact ⟨f.name, combineLoop_cons_error (combineStep_take_mismatch hft hth dfs)⟩

theorem combineLoop_mismatch_none (l : List StagedFile) (dfs : List Table)
    (t0 : Table) (ts : List Table)
    (hcl : ∀ f ∈ l, fileClean f)
    (hpt : parsedTables l = t0 :: ts)
    (hex : ∃ t ∈ ts, t.header ≠ t0.header) :
    ∃ n, combineLoop l none dfs = .error (.headerMismatch n) := by
  induction l generalizing dfs with
  | nil => rw [parsedTables_nil] at hpt; cases hpt
  | cons f rest ih =>
    cases hft : fileTable f with
    | none =>
      rw [combineLoop_cons_ok (combineStep_skip none dfs hft (hcl f (by simp)))]
      rw [parsedTables_cons_none hft] at hpt
      exact ih dfs (fun g hg => hcl g (List.mem_cons_of_mem f hg)) hpt
    | some t =>
      rw [parsedTables_cons_some hft] at hpt
      injection hpt with h1 h2
      rw [combineLoop_cons_ok (combineStep_take_none hft dfs)]
      refine combineLoop_mismatch_some rest t.header (dfs ++ [t])
        (fun g hg => hcl g (List.mem_cons_of_mem f hg)) ?_
      rw [h2, h1]
      exact hex

/-! ### From the loop to the pipeline and the endpoint -/

theorem combinePipeline_of_loop_ok {s : Storage} {hd : Option (List String)}
    {d0 : Table} {ds : List Table}
    (hl : combineLoop (listed s) none [] = .ok (hd, d0 :: ds)) :
    combinePipeline s = .ok (concatTables d0 ds, (listed s).map StagedFile.name) := by
  have hne : listed s ≠ [] := by
    intro h0
    rw [h0] at hl
    simp [combineLoop] at hl
  unfold combinePipeline
  rw [if_neg hne, hl]

theorem combinePipeline_of_loop_error {s : Storage} {e : CombineError}
    (hne : listed s ≠ [])
    (hl : combineLoop (listed s) none [] = .error e) :
    combinePipeline s = .error e := by
  unfold combinePipeline
  rw [if_neg hne, hl]

theorem combinePipeline_ok_inv {s : Storage} {t : Table} {ns : List String}
    (h : combinePipeline s = .ok (t, ns)) :
    listed s ≠ [] ∧ ns = (listed s).map StagedFile.name ∧
      ∃ hd d0 ds, combineLoop (listed s) none [] = .ok (hd, d0 :: ds) ∧
        t = concatTables d0 ds := by
  unfold combinePipeline at h
  by_cases hne : listed s = []
  · rw [if_pos hne] at h; cases h
  · rw [if_neg hne] at h
    refine ⟨hne, ?_⟩
    cases hloop : combineLoop (listed s) none [] with
    | error e => rw [hloop] at h; cases h
    | ok p =>
      obtain ⟨hd, dfs⟩ := p
      cases dfs with
      | nil => rw [hloop] at h; cases h
      | cons d0 ds =>
        rw [hloop] at h
        simp only [Except.ok.injEq, Prod.mk.injEq] at h
        exact ⟨h.2.symm, hd, d0, ds, rfl, h.1.symm⟩

theorem combine_csv_of_pipeline_error {s : Storage} {e : CombineError}
    (d : String → Bool) (h : combinePipeline s = .error e) :
    combine_csv s d = (.error e, s) := by
  unfold combine_csv
  rw [h]

theorem combine_csv_of_pipeline_ok {s : Storage} {t : Table} {ns : List String}
    (d : String → Bool) (h : combinePipeline s = .ok (t, ns)) :
    combine_csv s d = (.ok (to_csv t), removeNames ns d s) := by
  unfold combine_csv
  rw [h]

theorem combinePipeline_success (s : Storage) (t0 : Table) (ts : List Table)
    (hcl : ∀ f ∈ listed s, fileClean f)
    (hpt : parsedTables (listed s) = t0 :: ts)
    (hcons : ∀ t ∈ parsedTables (listed s), t.header = t0.header) :
    combinePipeline s = .ok (concatTables t0 ts, (listed s).map StagedFile.name) := by
  have hloop := combineLoop_clean_consistent (listed s) [] hcl (by
    intro u hu
    rw [hpt]
    simp only [refHeader]
    exact hcons u hu)
  rw [hpt, List.nil_append] at hloop
  rw [show stateAfter (listed s) = some t0.header by simp [stateAfter, hpt]] at hloop
  exact combinePipeline_of_loop_ok hloop

instance (l : List Table) : Decidable (consistentTables l) :=
  inferInstanceAs (Decidable (∀ t ∈ l, t.header = refHeader l))

/-! ### Claim theorems -/

/-- C1: for every combine over a storage area whose non-empty files all
parse successfully with identical headers, the operation succeeds and
returns a CSV whose header row is the reference header (the header of
the first successfully parsed non-empty file) and whose data rows are
exactly the concatenation of all accepted files' data rows, preserving
per-file order and, within each file, per-row order. -/
theorem combine_success_returns_concatenation (s : Storage) (d : String → Bool)
    (t0 : Table) (ts : List Table)
    (hcl : ∀ f ∈ listed s, fileClean f)
    (hpt : parsedTables (listed s) = t0 :: ts)
    (hcons : ∀ t ∈ parsedTables (listed s), t.header = t0.header) :
    combine_csv s d =
        (.ok (to_csv (concatTables t0 ts)),
         removeNames ((listed s).map StagedFile.name) d s) ∧
      (concatTables t0 ts).header = t0.header ∧
      (concatTables t0 ts).rows = ((t0 :: ts).map Table.rows).flatten := by
  have hp := combinePipeline_success s t0 ts hcl hpt hcons
  exact ⟨combine_csv_of_pipeline_ok d hp, rfl, rfl⟩

theorem combine_success_returns_concatenation_witness :
    combine_csv [⟨"A.csv", "a,b\n1,2\n"⟩, ⟨"B.csv", "a,b\n3,4\n"⟩] allDel =
      (.ok "a,b\n1,2\n3,4\n", ([] : Storage)) :=
  ((combine_success_returns_concatenation
      [⟨"A.csv", "a,b\n1,2\n"⟩, ⟨"B.csv", "a,b\n3,4\n"⟩] allDel
      ⟨["a", "b"], [["1", "2"]]⟩ [⟨["a", "b"], [["3", "4"]]⟩]
      (by decide) (by decide) (by decide)).1).trans (by decide)

/-- C2: for every combine in which a successfully parsed non-empty file
has a header that differs from the reference header (the header of the
first successfully parsed non-empty file, arising from a clean and
header-consistent earlier part of the listing), the whole combine
aborts with `HeaderMismatch` at that file, no combined output is
produced, and no file in the storage area is deleted — with nothing at
all assumed about the files listed after the mismatching one. -/
theorem combine_header_mismatch_aborts_without_mutation (s : Storage)
    (d : String → Bool) (l1 l2 : List StagedFile) (f : StagedFile)
    (t0 : Table) (ts : List Table) (t : Table)
    (hl : listed s = l1 ++ f :: l2)
    (hcl1 : ∀ g ∈ l1, fileClean g)
    (hpt1 : parsedTables l1 = t0 :: ts)
    (hcons1 : ∀ u ∈ parsedTables l1, u.header = t0.header)
    (hft : fileTable f = some t)
    (hne : t.header ≠ t0.header) :
    combine_csv s d = (.error (.headerMismatch f.name), s) := by
  have hlne : listed s ≠ [] := by
    rw [hl]
    simp
  have hloop : combineLoop (listed s) none [] = .error (.headerMismatch f.name) := by
    rw [hl, combineLoop_prefix_none l1 (f :: l2) [] hcl1 (by
      intro u hu
      rw [hpt1]
      simp only [refHeader]
      exact hcons1 u hu)]
    rw [show stateAfter l1 = some t0.header by simp [stateAfter, hpt1]]
    exact combineLoop_cons_error (combineStep_take_mismatch hft hne _)
  exact combine_csv_of_pipeline_error d (combinePipeline_of_loop_error hlne hloop)

theorem combine_header_mismatch_aborts_without_mutation_witness :
    combine_csv
        [⟨"A.csv", "a,b\n1,2\n"⟩, ⟨"B.csv", "a,c\n3,4\n"⟩, ⟨"junk.csv", "a,b\n1,2\nx,y,z\n"⟩]
        allDel =
      (.error (.headerMismatch "B.csv"),
       [⟨"A.csv", "a,b\n1,2\n"⟩, ⟨"B.csv", "a,c\n3,4\n"⟩, ⟨"junk.csv", "a,b\n1,2\nx,y,z\n"⟩]) :=
  combine_header_mismatch_aborts_without_mutation
    [⟨"A.csv", "a,b\n1,2\n"⟩, ⟨"B.csv", "a,c\n3,4\n"⟩, ⟨"junk.csv", "a,b\n1,2\nx,y,z\n"⟩]
    allDel [⟨"A.csv", "a,b\n1,2\n"⟩] [⟨"junk.csv", "a,b\n1,2\nx,y,z\n"⟩]
    ⟨"B.csv", "a,c\n3,4\n"⟩
    ⟨["a", "b"], [["1", "2"]]⟩ [] ⟨["a", "c"], [["3", "4"]]⟩
    (by decide) (by decide) (by decide) (by decide) (by decide) (by decide)

/-- C3: for every combine that reaches the success point, the deletion
phase targets every file of the initial listing (including files that
were skipped for being empty: `ns` is the whole listing's name list),
and a failure to delete an individual file (`d` false on its name) does
not roll back or fail the operation — the combined output is still
returned; with every deletion succeeding, every listed file is gone. -/
theorem combine_success_deletes_listing_best_effort (s : Storage)
    (t : Table) (ns : List String)
    (hok : combinePipeline s = .ok (t, ns)) :
    ns = (listed s).map StagedFile.name ∧
      (∀ d, combine_csv s d = (.ok (to_csv t), removeNames ns d s)) ∧
      (∀ f ∈ s, f.name ∈ ns → f ∉ (combine_csv s allDel).2) := by
  obtain ⟨hne, hns, _⟩ := combinePipeline_ok_inv hok
  refine ⟨hns, fun d => combine_csv_of_pipeline_ok d hok, ?_⟩
  intro f hf hfn
  rw [combine_csv_of_pipeline_ok allDel hok]
  simp [removeNames, allDel, List.mem_filter, hfn]

theorem combine_success_deletes_listing_best_effort_witness :
    combine_csv [⟨"A.csv", "a,b\n1,2\n"⟩, ⟨"E.csv", ""⟩] (fun n => n == "A.csv") =
        (.ok "a,b\n1,2\n", [⟨"E.csv", ""⟩]) ∧
      combine_csv [⟨"A.csv", "a,b\n1,2\n"⟩, ⟨"E.csv", ""⟩] allDel =
        (.ok "a,b\n1,2\n", ([] : Storage)) :=
  ⟨((combine_success_deletes_listing_best_effort
      [⟨"A.csv", "a,b\n1,2\n"⟩, ⟨"E.csv", ""⟩]
      ⟨["a", "b"], [["1", "2"]]⟩ ["A.csv", "E.csv"] (by decide)).2.1
        (fun n => n == "A.csv")).trans (by decide),
   ((combine_success_deletes_listing_best_effort
      [⟨"A.csv", "a,b\n1,2\n"⟩, ⟨"E.csv", ""⟩]
      ⟨["a", "b"], [["1", "2"]]⟩ ["A.csv", "E.csv"] (by decide)).2.1 allDel).trans
    (by decide)⟩

/-- Sanity check of the implicit-index behavior: a file whose data rows
are uniformly one field wider than the header parses successfully, the
leading field of each row becoming its row label (dropped from the
data), exactly as pandas documents. -/
theorem read_csv_implicit_index_one_extra :
    read_csv "a,b\n1,2,3\n" = .ok { header := ["a", "b"], rows := [["2", "3"]] } := by
  decide

/-- Sanity check of the tokenizing error: a genuinely ragged file — a
data row wider than the field count established by the header and the
first data row — raises, as pandas does ("Expected 2 fields, saw 3"). -/
theorem read_csv_ragged_row_errors :
    read_csv "a,b\n1,2\n3,4,5\n" = .error "Error tokenizing data" := by
  decide

/-- C4: for every combine in which the first anomalous file raises a
structural parse error (its content is non-empty but `read_csv` fails,
after a clean, header-consistent prefix), the whole combine aborts with
a parse-error failure naming that file, no partial combined output is
produced, and no file is deleted. -/
theorem combine_parse_error_aborts_without_mutation (s : Storage)
    (d : String → Bool) (l1 l2 : List StagedFile) (f : StagedFile) (e : String)
    (hl : listed s = l1 ++ f :: l2)
    (hcl1 : ∀ g ∈ l1, fileClean g)
    (hcons1 : consistentTables (parsedTables l1))
    (hfc : f.content ≠ "")
    (hpe : read_csv f.content = .error e) :
    combine_csv s d = (.error (.parseError f.name), s) := by
  have hne : listed s ≠ [] := by rw [hl]; simp
  have hloop : combineLoop (listed s) none [] = .error (.parseError f.name) := by
    rw [hl, combineLoop_prefix_none l1 (f :: l2) [] hcl1 hcons1]
    exact combineLoop_cons_error (combineStep_parse_error hfc hpe _ _)
  exact combine_csv_of_pipeline_error d (combinePipeline_of_loop_error hne hloop)

theorem combine_parse_error_aborts_without_mutation_witness :
    combine_csv [⟨"A.csv", "a,b\n1,2\n"⟩, ⟨"bad.csv", "a,b\n1,2\n3,4,5\n"⟩] allDel =
      (.error (.parseError "bad.csv"),
       [⟨"A.csv", "a,b\n1,2\n"⟩, ⟨"bad.csv", "a,b\n1,2\n3,4,5\n"⟩]) :=
  combine_parse_error_aborts_without_mutation
    [⟨"A.csv", "a,b\n1,2\n"⟩, ⟨"bad.csv", "a,b\n1,2\n3,4,5\n"⟩] allDel
    [⟨"A.csv", "a,b\n1,2\n"⟩] [] ⟨"bad.csv", "a,b\n1,2\n3,4,5\n"⟩ "Error tokenizing data"
    (by decide) (by decide) (by decide) (by decide) (by decide)

/-- C7: for every combine invoked when the storage area listing contains
no file with the accepted extension, the operation fails with
`NoFilesFound`, produces no output, and deletes nothing. -/
theorem combine_empty_listing_fails_no_files_found (s : Storage)
    (d : String → Bool) (h : listed s = []) :
    combine_csv s d = (.error .noFilesFound, s) := by
  have hp : combinePipeline s = .error .noFilesFound := by
    unfold combinePipeline
    rw [if_pos h]
  exact combine_csv_of_pipeline_error d hp

theorem combine_empty_listing_fails_no_files_found_witness :
    combine_csv [⟨"notes.txt", "x"⟩] allDel =
      (.error .noFilesFound, [⟨"notes.txt", "x"⟩]) :=
  combine_empty_listing_fails_no_files_found [⟨"notes.txt", "x"⟩] allDel (by decide)

theorem combineLoop_append_skip (e : StagedFile) (l2 : List StagedFile)
    (hskip : fileTable e = none) (hcl : fileClean e) :
    ∀ (l1 : List StagedFile) (headers : Option (List String)) (dfs : List Table),
      combineLoop (l1 ++ e :: l2) headers dfs = combineLoop (l1 ++ l2) headers dfs := by
  intro l1
  induction l1 with
  | nil =>
    intro headers dfs
    exact combineLoop_cons_ok (combineStep_skip headers dfs hskip hcl)
  | cons f l1 ih =>
    intro headers dfs
    simp only [List.cons_append, combineLoop]
    cases hstep : combineStep headers dfs f with
    | error e' => rfl
    | ok p =>
      obtain ⟨headers', dfs'⟩ := p
      exact ih headers' dfs'

/-- C6: a listed file whose byte content is empty, or whose parse yields
a table with zero data rows, is skipped: the per-file loop behaves on
any surrounding files exactly as if the skipped file were absent (so it
contributes no rows and aborts nothing, and the remaining files are
still processed), and a combine that succeeds without it succeeds with
it, producing the same combined table (only the deletion list also
carries the skipped file's name). -/
theorem combine_skips_empty_and_rowless_files (s1 s2 : Storage) (e : StagedFile)
    (ha : allowed_file e.name = true)
    (hskip : fileTable e = none) (hcl : fileClean e) :
    (∀ headers dfs,
        combineLoop (listed (s1 ++ e :: s2)) headers dfs =
          combineLoop (listed (s1 ++ s2)) headers dfs) ∧
      (∀ t ns, combinePipeline (s1 ++ s2) = .ok (t, ns) →
        combinePipeline (s1 ++ e :: s2) =
          .ok (t, (listed (s1 ++ e :: s2)).map StagedFile.name)) := by
  have hlst : listed (s1 ++ e :: s2) = listed s1 ++ e :: listed s2 := by
    simp [listed, List.filter_append, List.filter_cons, ha]
  have hlst2 : listed (s1 ++ s2) = listed s1 ++ listed s2 := by
    simp [listed, List.filter_append]
  have hloopEq : ∀ headers dfs,
      combineLoop (listed (s1 ++ e :: s2)) headers dfs =
        combineLoop (listed (s1 ++ s2)) headers dfs := by
    intro headers dfs
    rw [hlst, hlst2, combineLoop_append_skip e (listed s2) hskip hcl (listed s1) headers dfs]
  refine ⟨hloopEq, ?_⟩
  intro t ns hok
  obtain ⟨hne, hns, hd, d0, ds, hloop, ht⟩ := combinePipeline_ok_inv hok
  have hloop' : combineLoop (listed (s1 ++ e :: s2)) none [] = .ok (hd, d0 :: ds) := by
    rw [hloopEq none []]
    exact hloop
  rw [ht]
  exact combinePipeline_of_loop_ok hloop'

theorem combine_skips_empty_and_rowless_files_witness :
    combineLoop (listed ([⟨"A.csv", "a,b\n1,2\n"⟩] ++ ⟨"E.csv", ""⟩ :: [⟨"B.csv", "a,b\n3,4\n"⟩]))
        none [] =
      combineLoop (listed ([⟨"A.csv", "a,b\n1,2\n"⟩] ++ [⟨"B.csv", "a,b\n3,4\n"⟩])) none [] :=
  (combine_skips_empty_and_rowless_files [⟨"A.csv", "a,b\n1,2\n"⟩] [⟨"B.csv", "a,b\n3,4\n"⟩]
    ⟨"E.csv", ""⟩ (by decide) (by decide) (by decide)).1 none []

/-- C8: an upload whose payload has byte length zero is rejected and
never stored: if no file in the storage area is empty, then after any
upload batch no file in the storage area is empty (in particular the
upload loop never creates a zero-length staged file). -/
theorem upload_never_stores_empty_file (s : Storage) (reqs : List StagedFile)
    (hs : ∀ f ∈ s, f.content ≠ "") :
    ∀ f ∈ upload_files s reqs, f.content ≠ "" := by
  induction reqs generalizing s with
  | nil => simpa [upload_files] using hs
  | cons r rs ih =>
    rw [upload_files, List.foldl_cons]
    refine ih (uploadStep s r) ?_
    intro f hf
    unfold uploadStep at hf
    split at hf
    next hall =>
      split at hf
      next hlen => exact hs f hf
      next hlen =>
        split at hf
        next hmax => exact hs f hf
        next hmax =>
          unfold putFile at hf
          rcases List.mem_append.mp hf with h1 | h2
          · exact hs f (List.mem_of_mem_filter h1)
          · simp only [List.mem_singleton] at h2
            have hfc : f.content = r.content := by rw [h2]
            rw [hfc]
            intro hc
            rw [hc] at hlen
            exact hlen rfl
    next hall => exact hs f hf

theorem upload_never_stores_empty_file_witness :
    (⟨"a.csv", ""⟩ : StagedFile) ∉ upload_files [] [⟨"a.csv", ""⟩] := fun hm =>
  upload_never_stores_empty_file [] [⟨"a.csv", ""⟩] (by simp) ⟨"a.csv", ""⟩ hm rfl

theorem strJoin_append (xs ys : List String) :
    strJoin (xs ++ ys) = strJoin xs ++ strJoin ys := by
  induction xs with
  | nil => simp [strJoin]
  | cons x xs ih => simp [strJoin, ih, String.append_assoc]

/-- C5: fields are parsed as raw strings and a literal empty-string
field value survives combination verbatim: a data row `r` of any
accepted file (here with an empty string at position `j`) appears
unchanged among the combined table's rows, and its serialized line
(fields joined by commas, the empty field contributing the empty
string) occurs inside the returned CSV text — never a null marker,
never omitted. -/
theorem combine_preserves_empty_field_verbatim (s : Storage) (d : String → Bool)
    (t0 : Table) (ts : List Table) (t : Table) (r : List String) (j : Nat)
    (hcl : ∀ f ∈ listed s, fileClean f)
    (hpt : parsedTables (listed s) = t0 :: ts)
    (hcons : ∀ u ∈ parsedTables (listed s), u.header = t0.header)
    (htm : t ∈ parsedTables (listed s))
    (hr : r ∈ t.rows)
    (hj : r[j]? = some "") :
    (combine_csv s d).1 = .ok (to_csv (concatTables t0 ts)) ∧
      r ∈ (concatTables t0 ts).rows ∧
      ∃ a b : String,
        to_csv (concatTables t0 ts) = a ++ (serializeRecord r ++ "\n") ++ b := by
  have hp := combinePipeline_success s t0 ts hcl hpt hcons
  have hrm : r ∈ (concatTables t0 ts).rows := by
    show r ∈ ((t0 :: ts).map Table.rows).flatten
    rw [hpt] at htm
    exact List.mem_flatten.mpr ⟨t.rows, List.mem_map_of_mem _ htm, hr⟩
  refine ⟨by rw [combine_csv_of_pipeline_ok d hp], hrm, ?_⟩
  obtain ⟨u, v, huv⟩ := List.append_of_mem hrm
  refine ⟨strJoin (((concatTables t0 ts).header :: u).map csvLine),
    strJoin (v.map csvLine), ?_⟩
  show strJoin (((concatTables t0 ts).header :: (concatTables t0 ts).rows).map csvLine) = _
  rw [huv]
  rw [show (concatTables t0 ts).header :: (u ++ r :: v) =
    ((concatTables t0 ts).header :: u) ++ (r :: v) by simp]
  rw [List.map_append, strJoin_append]
  rw [show strJoin ((r :: v).map csvLine) = csvLine r ++ strJoin (v.map csvLine) from rfl]
  rw [← String.append_assoc]
  rfl

theorem combine_preserves_empty_field_verbatim_witness :
    (combine_csv [⟨"A.csv", "x,y,z\na,,c\n"⟩] allDel).1 = .ok "x,y,z\na,,c\n" ∧
      ["a", "", "c"] ∈ (concatTables ⟨["x", "y", "z"], [["a", "", "c"]]⟩ []).rows :=
  have h := combine_preserves_empty_field_verbatim [⟨"A.csv", "x,y,z\na,,c\n"⟩] allDel
    ⟨["x", "y", "z"], [["a", "", "c"]]⟩ [] ⟨["x", "y", "z"], [["a", "", "c"]]⟩
    ["a", "", "c"] 1
    (by decide) (by decide) (by decide) (by decide) (by decide) (by decide)
  ⟨h.1.trans (by decide), h.2.1⟩

/-- C9 counterexample: the code enumerates the storage area with
`os.listdir` and no sort, so the combined output is not independent of
the filesystem listing order: these two listings hold the same set of
stored files (they are permutations of each other) yet combine to
different CSV texts, refuting the claimed lexicographic/deterministic
enumeration. -/
theorem combine_depends_on_listing_order :
    ([⟨"A.csv", "a,b\n1,2\n"⟩, ⟨"B.csv", "a,b\n3,4\n"⟩] : Storage).Perm
        [⟨"B.csv", "a,b\n3,4\n"⟩, ⟨"A.csv", "a,b\n1,2\n"⟩] ∧
      (combine_csv [⟨"A.csv", "a,b\n1,2\n"⟩, ⟨"B.csv", "a,b\n3,4\n"⟩] allDel).1 ≠
        (combine_csv [⟨"B.csv", "a,b\n3,4\n"⟩, ⟨"A.csv", "a,b\n1,2\n"⟩] allDel).1 :=
  ⟨List.Perm.swap _ _ _, by decide⟩

/-- C9 amended: enumeration is the raw `os.listdir` order with no sort,
so the combined output is a function of the listing sequence rather
than of the set of stored files; what does hold is that for two
listings that are permutations of each other (same stored files, any
filesystem order), a combine that succeeds on one succeeds on the
other with the same reference header and with data rows that are a
permutation (per-file blocks reordered) of the first run's rows. -/
theorem combine_perm_listing_gives_perm_rows (s1 s2 : Storage) (d : String → Bool)
    (t0 : Table) (ts : List Table)
    (hperm : s1.Perm s2)
    (hcl : ∀ f ∈ listed s1, fileClean f)
    (hpt : parsedTables (listed s1) = t0 :: ts)
    (hcons : ∀ t ∈ parsedTables (listed s1), t.header = t0.header) :
    ∃ t0' ts', parsedTables (listed s2) = t0' :: ts' ∧
      combine_csv s2 d = (.ok (to_csv (concatTables t0' ts')),
        removeNames ((listed s2).map StagedFile.name) d s2) ∧
      (concatTables t0' ts').header = t0.header ∧
      (concatTables t0' ts').rows.Perm (concatTables t0 ts).rows := by
  have hpl : (listed s1).Perm (listed s2) := hperm.filter _
  have hppt : (parsedTables (listed s1)).Perm (parsedTables (listed s2)) :=
    hpl.filterMap _
  rw [hpt] at hppt
  cases hpt2 : parsedTables (listed s2) with
  | nil =>
    rw [hpt2] at hppt
    have := hppt.length_eq
    simp at this
  | cons t0' ts' =>
    rw [hpt2] at hppt
    have hcl2 : ∀ f ∈ listed s2, fileClean f := fun f hf =>
      hcl f (hpl.mem_iff.mpr hf)
    have hback : ∀ t ∈ parsedTables (listed s2), t ∈ t0 :: ts := by
      intro t ht
      exact hppt.mem_iff.mpr (hpt2 ▸ ht)
    have hhd2 : ∀ t ∈ parsedTables (listed s2), t.header = t0.header := by
      intro t ht
      exact (hpt ▸ hcons) t (hpt.symm ▸ hback t ht)
    have hh0 : t0'.header = t0.header :=
      hhd2 t0' (by rw [hpt2]; exact List.mem_cons_self t0' ts')
    have hp2 := combinePipeline_success s2 t0' ts' hcl2 hpt2
      (fun t ht => (hhd2 t ht).trans hh0.symm)
    refine ⟨t0', ts', rfl, combine_csv_of_pipeline_ok d hp2, hh0, ?_⟩
    show ((t0' :: ts').map Table.rows).flatten.Perm ((t0 :: ts).map Table.rows).flatten
    exact (hppt.symm.map _).flatten

theorem combine_perm_listing_gives_perm_rows_witness :
    combine_csv [⟨"B.csv", "a,b\n3,4\n"⟩, ⟨"A.csv", "a,b\n1,2\n"⟩] allDel =
        (.ok "a,b\n3,4\n1,2\n", ([] : Storage)) ∧
      (concatTables ⟨["a", "b"], [["3", "4"]]⟩ [⟨["a", "b"], [["1", "2"]]⟩]).rows.Perm
        (concatTables ⟨["a", "b"], [["1", "2"]]⟩ [⟨["a", "b"], [["3", "4"]]⟩]).rows := by
  obtain ⟨t0', ts', h1, h2, h3, h4⟩ :=
    combine_perm_listing_gives_perm_rows
      [⟨"A.csv", "a,b\n1,2\n"⟩, ⟨"B.csv", "a,b\n3,4\n"⟩]
      [⟨"B.csv", "a,b\n3,4\n"⟩, ⟨"A.csv", "a,b\n1,2\n"⟩] allDel
      ⟨["a", "b"], [["1", "2"]]⟩ [⟨["a", "b"], [["3", "4"]]⟩]
      (by decide) (by decide) (by decide) (by decide)
  have he : parsedTables (listed [⟨"B.csv", "a,b\n3,4\n"⟩, ⟨"A.csv", "a,b\n1,2\n"⟩]) =
      [⟨["a", "b"], [["3", "4"]]⟩, ⟨["a", "b"], [["1", "2"]]⟩] := by decide
  rw [h1] at he
  injection he with e1 e2
  subst e1
  subst e2
  exact ⟨h2.trans (by decide), h4⟩

/-! ### Path safety of the remove endpoint -/

theorem splitOnPred_no_sep (p : Char → Bool) (l : List Char)
    (h : ∀ c ∈ l, p c = false) : splitOnPred p l = [l] := by
  induction l with
  | nil => rfl
  | cons c t ih =>
    simp only [splitOnPred, h c (List.mem_cons_self c t), Bool.false_eq_true, if_false,
      ih (fun d hd => h d (List.mem_cons_of_mem c hd))]

theorem splitOnPred_append_sep (p : Char → Bool) (xs ys : List Char) (sep : Char)
    (hxs : ∀ c ∈ xs, p c = false) (hsep : p sep = true) :
    splitOnPred p (xs ++ sep :: ys) = xs :: splitOnPred p ys := by
  induction xs with
  | nil => simp only [List.nil_append, splitOnPred, hsep, if_true]
  | cons c t ih =>
    simp only [List.cons_append, splitOnPred, hxs c (List.mem_cons_self c t),
      Bool.false_eq_true, if_false]
    rw [show t.append (sep :: ys) = t ++ sep :: ys from rfl,
      ih (fun d hd => hxs d (List.mem_cons_of_mem c hd))]

theorem mem_dropTrailingDU {a : Char} : ∀ {l : List Char}, a ∈ dropTrailingDU l → a ∈ l := by
  intro l
  induction l with
  | nil => intro h; exact absurd h (by simp [dropTrailingDU])
  | cons c t ih =>
    intro h
    simp only [dropTrailingDU] at h
    by_cases he : (dropTrailingDU t).isEmpty
    · rw [if_pos he] at h
      by_cases hd : isDotU c
      · rw [if_pos hd] at h
        cases h
      · rw [if_neg hd] at h
        simp only [List.mem_singleton] at h
        simp [h]
    · rw [if_neg he] at h
      rcases List.mem_cons.mp h with rfl | h2
      · exact List.mem_cons_self a t
      · exact List.mem_cons_of_mem c (ih h2)

theorem dropTrailingDU_head : ∀ {l : List Char} {c : Char} {r : List Char},
    dropTrailingDU l = c :: r → ∃ t0, l = c :: t0 := by
  intro l c r h
  cases l with
  | nil => cases h
  | cons d t =>
    simp only [dropTrailingDU] at h
    by_cases he : (dropTrailingDU t).isEmpty
    · rw [if_pos he] at h
      by_cases hd : isDotU d
      · rw [if_pos hd] at h
        cases h
      · rw [if_neg hd] at h
        injection h with h1 _
        exact ⟨t, by rw [h1]⟩
    · rw [if_neg he] at h
      injection h with h1 _
      exact ⟨t, by rw [h1]⟩

theorem dropWhile_first_false (p : Char → Bool) :
    ∀ (l : List Char) {c : Char} {t : List Char}, l.dropWhile p = c :: t → p c = false := by
  intro l
  induction l with
  | nil => intro c t h; cases h
  | cons d ds ih =>
    intro c t h
    rw [List.dropWhile_cons] at h
    by_cases hd : p d
    · rw [if_pos hd] at h
      exact ih h
    · rw [if_neg hd] at h
      injection h with h1 _
      subst h1
      cases hpc : p d
      · rfl
      · exact absurd hpc hd

theorem secureFilenameChars_no_slash (l : List Char) : '/' ∉ secureFilenameChars l := by
  intro hm
  unfold secureFilenameChars at hm
  have h1 := mem_dropTrailingDU hm
  have h2 := (List.dropWhile_sublist isDotU).subset h1
  have h3 := List.mem_filter.mp h2
  exact absurd h3.2 (by decide)

theorem secureFilenameChars_head_not_dot (l : List Char) (c : Char) (r : List Char)
    (h : secureFilenameChars l = c :: r) : isDotU c = false := by
  unfold secureFilenameChars at h
  obtain ⟨t0, ht⟩ := dropTrailingDU_head h
  exact dropWhile_first_false isDotU _ ht

/-- C10: every client-supplied filename passed to the remove endpoint is
sanitized with `secure_filename` (the same sanitizer the upload endpoint
uses) before being joined under the storage root, and the resulting
target path can never escape that root: after resolving any `.` and `..`
components, the target always starts at the `uploads` directory and
reaches at most one level below it. -/
theorem remove_request_cannot_escape_storage_root (filename : String) :
    ∃ rest, normalizePath (pathComponents (remove_target filename)) =
      "uploads".data :: rest ∧ rest.length ≤ 1 := by
  have hns : '/' ∉ secureFilenameChars filename.data :=
    secureFilenameChars_no_slash filename.data
  have hhead : ¬ ((secureFilenameChars filename.data).head? = some '/') := by
    cases hc : secureFilenameChars filename.data with
    | nil => simp
    | cons c t =>
      simp only [List.head?_cons, Option.some.injEq]
      intro h
      apply hns
      rw [hc, h]
      exact List.mem_cons_self '/' t
  have htarget : remove_target filename =
      "uploads".data ++ '/' :: secureFilenameChars filename.data := by
    show os_path_join UPLOAD_FOLDER.data (secure_filename filename).data = _
    rw [show (secure_filename filename).data = secureFilenameChars filename.data from rfl]
    rw [show UPLOAD_FOLDER.data = "uploads".data from rfl]
    unfold os_path_join
    rw [if_neg hhead]
  have hsplit : splitOnChar '/' (remove_target filename) =
      ["uploads".data, secureFilenameChars filename.data] := by
    rw [htarget]
    unfold splitOnChar
    rw [splitOnPred_append_sep _ _ _ _ (by decide) (by decide)]
    rw [splitOnPred_no_sep _ _ (fun c hc =>
      beq_eq_false_iff_ne.mpr (fun h => hns (by rw [← h]; exact hc)))]
  cases hc : secureFilenameChars filename.data with
  | nil =>
    refine ⟨[], ?_, by simp⟩
    have hpc : pathComponents (remove_target filename) = ["uploads".data] := by
      unfold pathComponents
      rw [hsplit, hc]
      decide
    rw [hpc]
    decide
  | cons c t =>
    have hcd : isDotU c = false := secureFilenameChars_head_not_dot filename.data c t hc
    have h1 : c :: t ≠ ['.'] := by
      intro h
      injection h with h1' _
      rw [h1'] at hcd
      exact absurd hcd (by decide)
    have h2 : c :: t ≠ ['.', '.'] := by
      intro h
      injection h with h1' _
      rw [h1'] at hcd
      exact absurd hcd (by decide)
    refine ⟨[c :: t], ?_, by simp⟩
    have hpc : pathComponents (remove_target filename) = ["uploads".data, c :: t] := by
      unfold pathComponents
      rw [hsplit, hc]
      rw [List.filter_cons_of_pos (by decide), List.filter_cons_of_pos (by simp)]
      rfl
    rw [hpc]
    unfold normalizePath
    rw [List.foldl_cons, List.foldl_cons, List.foldl_nil]
    rw [if_neg (by decide : ¬ ("uploads".data = ['.'])),
      if_neg (by decide : ¬ ("uploads".data = ['.', '.']))]
    rw [if_neg h1, if_neg h2]
    rfl
